import Mathlib

/-
Verification of the hosts-server domain-resolution pipeline
(`pkg/hosts/hosts_detector.go`) against its natural-language specification.

The Go code is shallowly embedded: pure computations become Lean functions,
the network becomes explicit environment parameters, the shared ping cache
becomes an explicitly threaded association list, and the two places where Go
leaves the result order unspecified (`sort.Slice`, which is documented as not
stable, and goroutine completion order) become relations that admit every
order the Go runtime may produce.  Latencies are `float64` values that the
code only stores, compares and selects (never arithmetic that could round),
so they are modelled as exact rationals.
-/

namespace HostsServer

/-- Constant `PingTimeoutSec` (hosts_detector.go line 22). -/
def PingTimeoutSec : ℕ := 1

/-- Constant `PingCount` (line 23): echo requests per probe. -/
def PingCount : ℕ := 3

/-- Constant `MaxConcurrent` (line 25): bound on concurrently processed domains. -/
def MaxConcurrent : ℕ := 10

/-- The sentinel latency `float64(PingTimeoutSec * 1000) = 1000.0` returned
(and mostly cached) when a probe fails (lines 103, 120-122). -/
def timeoutSentinel : ℚ := 1000

theorem timeoutSentinel_eq : timeoutSentinel = PingTimeoutSec * 1000 := by
  norm_num [timeoutSentinel, PingTimeoutSec]

/-- Static denylist `DiscardList` (line 29). -/
def DiscardList : List String := ["1.0.1.1", "1.2.1.1", "127.0.0.1"]

/-- Fixed ordered resolver list `DNSServers` (lines 30-35). -/
def DNSServers : List String :=
  ["1.1.1.1:53", "8.8.8.8:53", "101.101.101.101:53", "101.102.103.104:53"]

/-- Per-domain detection result, struct `HostResult` (lines 41-46). -/
structure HostResult where
  Domain : String
  IP : String
  Ping : ℚ
  Error : String
deriving DecidableEq, Repr

/-- The process-wide cache `PingCache` (line 36), modelled as an association
list; consing a binding at the head mirrors a Go map assignment (the newest
binding wins on lookup). -/
abbrev Cache := List (String × ℚ)

/-- Behaviour of the echo transport for one probed IP during this process:
`none` models `ping.NewPinger(ip)` returning an error (so `Run` is never
executed); `some (runErr, samples)` models a completed `pinger.Run()` where
`runErr` says whether `Run` returned an error and `samples` lists the
round-trip times (milliseconds) delivered to the `OnRecv` callback, in
arrival order. -/
abbrev ProbeEnv := String → Option (Bool × List ℚ)

/-- Boolean `≤` on rationals, the comparison `sort.Float64s` sorts by. -/
def qle (a b : ℚ) : Bool := a ≤ b

/-- Insert into a sorted list, keeping it sorted. -/
def insertSorted (le : α → α → Bool) (a : α) : List α → List α
  | [] => [a]
  | b :: bs => if le a b then a :: b :: bs else b :: insertSorted le a bs

/-- Ascending sort by insertion.  Over a linear order the ascending sorted
permutation of a list is unique, so this models Go's `sort.Float64s` and
`sort.Strings` (both sort ascending; which algorithm the Go runtime uses is
unobservable in the result).  Structural recursion is used so that concrete
runs reduce by kernel computation. -/
def sortBy (le : α → α → Bool) : List α → List α
  | [] => []
  | a :: as => insertSorted le a (sortBy le as)

/-- Shallow embedding of `pingCached` (lines 91-136).  The third component
instruments the model: it is `true` exactly when `pinger.Run()` was executed,
i.e. when a real network probe was performed.  A cache hit returns the cached
value; a `NewPinger` failure returns the sentinel WITHOUT caching it; a `Run`
error or an empty sample list caches and returns the sentinel; otherwise the
element at index `len(pingTimes)/2` of the sorted sample list
(`sort.Float64s(pingTimes); pingTimes[len(pingTimes)/2]`) is cached and
returned. -/
def pingCached (env : ProbeEnv) (cache : Cache) (ip : String) : ℚ × Cache × Bool :=
  match cache.lookup ip with
  | some v => (v, cache, false)
  | none =>
    match env ip with
    | none => (timeoutSentinel, cache, false)
    | some (runErr, samples) =>
      if runErr || samples.isEmpty then
        (timeoutSentinel, (ip, timeoutSentinel) :: cache, true)
      else
        let m := (sortBy qle samples).getD (samples.length / 2) 0
        (m, (ip, m) :: cache, true)

/-- The probing loop of `selectBestIP` (lines 149-153): ping every candidate
in order, threading the shared cache; returns the `(ip, ping)` pairs in
candidate order together with the final cache. -/
def probeAll (env : ProbeEnv) (cache : Cache) : List String → List (String × ℚ) × Cache
  | [] => ([], cache)
  | ip :: rest =>
    let r := pingCached env cache ip
    let t := probeAll env r.2.1 rest
    ((ip, r.1) :: t.1, t.2)

/-- Post-state of `sort.Slice(results, func(i, j) { return results[i].Ping <
results[j].Ping })` (lines 156-158): a permutation that is nondecreasing in
the ping component.  Go's `sort.Slice` is documented as NOT stable, so among
equal pings every relative order is admissible, and the embedding admits
every sorted permutation. -/
def PingSorted (l : List (String × ℚ)) : Prop :=
  l.Chain' (fun a b => a.2 ≤ b.2)

/-- Possible outcomes of `selectBestIP` (lines 139-164): on an empty list it
returns `""` at once (line 141); otherwise some sorted permutation of the
probed pairs is produced and `results[0].IP` is returned.  The sort does not
touch the cache, so the final cache is the probing loop's. -/
def SelectOutcome (env : ProbeEnv) (cache : Cache) (ipList : List String)
    (best : String) (cache' : Cache) : Prop :=
  if ipList.isEmpty then best = "" ∧ cache' = cache
  else
    ∃ sorted firstPing rest,
      sorted.Perm (probeAll env cache ipList).1 ∧ PingSorted sorted ∧
      sorted = (best, firstPing) :: rest ∧ cache' = (probeAll env cache ipList).2

/-- First pair of the list whose ping is minimal — the tie-break the spec
claims (first-seen in iteration order). -/
def firstMin : List (String × ℚ) → Option (String × ℚ)
  | [] => none
  | x :: xs =>
    match firstMin xs with
    | none => some x
    | some y => if y.2 < x.2 then some y else some x

/-- Median in the usual statistical sense (middle element of the sorted
samples for an odd count, mean of the two middle elements for an even
count); this renders the claim's word "median" for comparison with what the
code computes. -/
def claimMedian (samples : List ℚ) : ℚ :=
  let s := sortBy qle samples
  if samples.length % 2 = 1 then s.getD (samples.length / 2) 0
  else (s.getD (samples.length / 2 - 1) 0 + s.getD (samples.length / 2) 0) / 2

theorem probeAll_map_fst (env : ProbeEnv) :
    ∀ (l : List String) (cache : Cache), (probeAll env cache l).1.map Prod.fst = l := by
  intro l
  induction l with
  | nil => intro cache; rfl
  | cons ip rest ih => intro cache; simp [probeAll, ih]

theorem pingSorted_pairwise {l : List (String × ℚ)} (h : PingSorted l) :
    l.Pairwise (fun a b => a.2 ≤ b.2) := by
  letI : IsTrans (String × ℚ) (fun a b => a.2 ≤ b.2) :=
    ⟨fun _ _ _ hab hbc => le_trans hab hbc⟩
  exact List.chain'_iff_pairwise.mp h

/-- Any possible return of `selectBestIP` on a non-empty list is a candidate
from the list, and its latency as recorded by the probing loop is ≤ the
latency recorded for every candidate of that call. -/
theorem selectOutcome_spec {env : ProbeEnv} {cache : Cache} {ipList : List String}
    {best : String} {cache' : Cache} (hne : ipList ≠ [])
    (h : SelectOutcome env cache ipList best cache') :
    best ∈ ipList ∧
    ∃ q, (best, q) ∈ (probeAll env cache ipList).1 ∧
      ∀ pr ∈ (probeAll env cache ipList).1, q ≤ pr.2 := by
  rw [SelectOutcome, if_neg (by simpa [List.isEmpty_iff] using hne)] at h
  obtain ⟨sorted, q, rest, hperm, hsort, heq, -⟩ := h
  subst heq
  have hmem : (best, q) ∈ (probeAll env cache ipList).1 :=
    hperm.mem_iff.mp (List.mem_cons_self _ _)
  have hpw := pingSorted_pairwise hsort
  rw [List.pairwise_cons] at hpw
  refine ⟨?_, q, hmem, ?_⟩
  · have h2 : ((best, q)).1 ∈ (probeAll env cache ipList).1.map Prod.fst :=
      List.mem_map_of_mem Prod.fst hmem
    rwa [probeAll_map_fst] at h2
  · intro pr hpr
    rcases List.mem_cons.mp (hperm.mem_iff.mpr hpr) with h1 | h1
    · simp [h1]
    · exact hpw.1 pr h1

/-- C1 (amended): for every non-empty candidate list, every value
`selectBestIP` may return is a candidate whose cached/probed latency is less
than or equal to the latency recorded for every other candidate in that call.
(The tie-break part of the original claim fails: `sort.Slice` is not stable,
see the counterexample.) -/
theorem C1_selectBestIP_minimal (env : ProbeEnv) (cache : Cache) (ipList : List String)
    (best : String) (cache' : Cache) (hne : ipList ≠ [])
    (h : SelectOutcome env cache ipList best cache') :
    best ∈ ipList ∧
    ∃ q, (best, q) ∈ (probeAll env cache ipList).1 ∧
      ∀ pr ∈ (probeAll env cache ipList).1, q ≤ pr.2 :=
  selectOutcome_spec hne h

/-- Witness for C1: a concrete run (one candidate, probe failure) where the
hypotheses hold and the minimal-latency conclusion is reached. -/
theorem C1_selectBestIP_minimal_witness :
    "1.1.1.1" ∈ ["1.1.1.1"] ∧
    ∃ q, ("1.1.1.1", q) ∈ (probeAll (fun _ => none) [] ["1.1.1.1"]).1 ∧
      ∀ pr ∈ (probeAll (fun _ => none) [] ["1.1.1.1"]).1, q ≤ pr.2 :=
  C1_selectBestIP_minimal (fun _ => none) [] ["1.1.1.1"] "1.1.1.1" [] (by decide)
    (by
      rw [SelectOutcome, if_neg (by decide)]
      refine ⟨[("1.1.1.1", timeoutSentinel)], timeoutSentinel, [], by decide, ?_, rfl, rfl⟩
      exact List.chain'_singleton _)

/-- Counterexample to C1 as stated: with two candidates `1.1.1.1 < 2.2.2.2`
(already lexicographically sorted) that both fail to probe and hence share
the minimal latency 1000, returning `2.2.2.2` is a possible outcome of
`selectBestIP` (Go's `sort.Slice` is documented as unstable, so the sorted
order `[2.2.2.2, 1.1.1.1]` is admissible), yet the first-seen minimal
candidate is `1.1.1.1`. -/
theorem C1_counterexample :
    SelectOutcome (fun _ => none) [] ["1.1.1.1", "2.2.2.2"] "2.2.2.2" [] ∧
    firstMin (probeAll (fun _ => none) [] ["1.1.1.1", "2.2.2.2"]).1 =
      some ("1.1.1.1", timeoutSentinel) ∧
    "2.2.2.2" ≠ "1.1.1.1" := by
  refine ⟨?_, by decide, by decide⟩
  rw [SelectOutcome, if_neg (by decide)]
  refine ⟨[("2.2.2.2", timeoutSentinel), ("1.1.1.1", timeoutSentinel)], timeoutSentinel,
    [("1.1.1.1", timeoutSentinel)], by decide, ?_, rfl, rfl⟩
  exact List.chain'_cons.mpr ⟨le_refl _, List.chain'_singleton _⟩

/-- C3: within one process lifetime (a fixed probe environment), calling
`pingCached` twice in succession on the same IP executes `pinger.Run()` — a
real network probe — at most once in total, and the second call returns a
measurement identical to the first call's. -/
theorem C3_pingCached_at_most_once (env : ProbeEnv) (cache : Cache) (ip : String) :
    (pingCached env (pingCached env cache ip).2.1 ip).1 = (pingCached env cache ip).1 ∧
    (pingCached env cache ip).2.2.toNat +
      (pingCached env (pingCached env cache ip).2.1 ip).2.2.toNat ≤ 1 := by
  cases hc : cache.lookup ip with
  | some v => simp [pingCached, hc]
  | none =>
    cases he : env ip with
    | none => simp [pingCached, hc, he]
    | some p =>
      obtain ⟨runErr, samples⟩ := p
      by_cases hb : (runErr || samples.isEmpty) = true
      · simp [pingCached, hc, he, hb, List.lookup]
      · simp [pingCached, hc, he, hb, List.lookup]

/-- C4 (amended): on a cache miss, the measurement is the element at index
`⌊k/2⌋` of the sorted list of the `k` received samples — the upper median,
which coincides with the statistical median whenever `k` is odd — and it is
the timeout sentinel `PingTimeoutSec * 1000` when the probe could not be
started, when `Run` returned an error, or when no samples were received. -/
theorem C4_pingCached_measurement (env : ProbeEnv) (cache : Cache) (ip : String)
    (hmiss : cache.lookup ip = none) :
    (env ip = none → (pingCached env cache ip).1 = timeoutSentinel) ∧
    ∀ runErr samples, env ip = some (runErr, samples) →
      ((runErr = true ∨ samples = []) → (pingCached env cache ip).1 = timeoutSentinel) ∧
      (runErr = false → samples ≠ [] →
        (pingCached env cache ip).1 = (sortBy qle samples).getD (samples.length / 2) 0 ∧
        (samples.length % 2 = 1 → (pingCached env cache ip).1 = claimMedian samples)) := by
  constructor
  · intro he; simp [pingCached, hmiss, he]
  · intro runErr samples he
    constructor
    · rintro (h | h) <;> subst h <;> simp [pingCached, hmiss, he]
    · intro hferr hne
      have hb : (runErr || samples.isEmpty) = false := by
        subst hferr; simpa [List.isEmpty_iff] using hne
      constructor
      · simp [pingCached, hmiss, he, hb]
      · intro hodd
        simp [pingCached, hmiss, he, hb, claimMedian, hodd]

/-- Witness for C4: a fresh cache (a miss) with three samples `[2, 1, 9]`
received and no run error; the measurement is the middle sorted sample `2`,
which is also the statistical median. -/
theorem C4_pingCached_measurement_witness :
    (pingCached (fun _ => some (false, [2, 1, 9])) [] "140.82.112.4").1 =
      (sortBy qle [2, 1, 9]).getD ([2, 1, 9].length / 2) 0 ∧
    (pingCached (fun _ => some (false, [2, 1, 9])) [] "140.82.112.4").1 =
      claimMedian [2, 1, 9] :=
  by
    have h := (C4_pingCached_measurement (fun _ => some (false, [2, 1, 9])) []
      "140.82.112.4" rfl).2 false [2, 1, 9] rfl
    exact ⟨(h.2 rfl (by decide)).1, (h.2 rfl (by decide)).2 (by decide)⟩

/-- Counterexample to C4 as stated: on a cache miss with the two samples
`[1, 5]` received, the code returns `5` (the upper-middle sorted sample),
not the statistical median `3`; and with a `Run` error after the single
sample `[7]` was received the code returns the sentinel `1000`, not the
sample median `7`. -/
theorem C4_counterexample :
    ([] : Cache).lookup "140.82.112.3" = none ∧
    (pingCached (fun _ => some (false, [1, 5])) [] "140.82.112.3").1 = 5 ∧
    claimMedian [1, 5] = 3 ∧ (5 : ℚ) ≠ 3 ∧
    (pingCached (fun _ => some (true, [7])) [] "140.82.112.3").1 = timeoutSentinel ∧
    claimMedian [7] = 7 ∧ timeoutSentinel ≠ 7 := by
  refine ⟨rfl, by decide, ?_, by norm_num, by decide, ?_, by decide⟩
  · show (1 + 5 : ℚ) / 2 = 3
    norm_num
  · rfl

/-- Behaviour of one DNS exchange (`c.Exchange`, line 206) for the queried
domain against one resolver: `none` models the exchange returning an error,
`some ips` a reply whose A records render to `ips` in answer order (non-A
answer records are skipped by the type switch at lines 211-215 and are
absorbed into the model). -/
abbrev DNSEnv := String → Option (List String)

/-- The resolver loop of `getIPFromDNS` (lines 201-221), with the `allIPs`
accumulator threaded exactly as in the source: an erroring resolver is
skipped, a reply's A addresses are appended, and the loop breaks as soon as
the accumulator is non-empty. -/
def dnsLoop (env : DNSEnv) : List String → List String → List String
  | acc, [] => acc
  | acc, server :: rest =>
    match env server with
    | none => dnsLoop env acc rest
    | some ips =>
      let acc2 := acc ++ ips
      if acc2.isEmpty then dnsLoop env acc2 rest else acc2

/-- Shallow embedding of `getIPFromDNS` (lines 198-224): run the resolver
loop over `DNSServers` starting from an empty accumulator and return the
accumulator together with the (always `nil`) error. -/
def getIPFromDNS (env : DNSEnv) : List String × Option String :=
  (dnsLoop env [] DNSServers, none)

/-- First-success-wins reading of the claim: the answer set of the first
resolver in order whose query succeeds with at least one address; empty if
there is none. -/
def firstDNSSuccess (env : DNSEnv) : List String → List String
  | [] => []
  | server :: rest =>
    match env server with
    | none => firstDNSSuccess env rest
    | some ips => if ips.isEmpty then firstDNSSuccess env rest else ips

theorem dnsLoop_eq_firstSuccess (env : DNSEnv) :
    ∀ servers : List String, dnsLoop env [] servers = firstDNSSuccess env servers := by
  intro servers
  induction servers with
  | nil => rfl
  | cons server rest ih =>
    rw [dnsLoop, firstDNSSuccess]
    cases env server with
    | none => exact ih
    | some ips =>
      simp only
      by_cases hi : ips.isEmpty
      · rw [List.isEmpty_iff] at hi
        subst hi
        simpa using ih
      · simp [hi]

/-- C7: `getIPFromDNS` walks the fixed ordered resolver list, silently skips
every resolver whose query errors, returns the answer of the first resolver
that yields at least one A-record address (so answers of later resolvers are
never merged in), and returns an empty list with a `nil` error when every
resolver errors or answers without an address. -/
theorem C7_getIPFromDNS_first_success (env : DNSEnv) :
    getIPFromDNS env = (firstDNSSuccess env DNSServers, none) := by
  rw [getIPFromDNS, dnsLoop_eq_firstSuccess]

/-- `fmt.Sprintf("%-30s %s", ip, domain)` (lines 319, 345): left-justify the
IP in a minimum-width-30 field, a space, the domain.  The width counts
characters; all IP-field values here are ASCII, for which Go's rune count
agrees. -/
def padLeftJustify (s : String) (w : ℕ) : String :=
  s ++ String.mk (List.replicate (w - s.length) ' ')

/-- One rendered hosts line of `GenerateHostsContent` (lines 345-349): the
fixed-width IP field and the domain, plus the `  # Timeout` marker when
`result.Ping >= float64(PingTimeoutSec*1000)` — note `>=`, not `==`. -/
def hostLine (r : HostResult) : String :=
  let line := padLeftJustify r.IP 30 ++ " " ++ r.Domain
  if r.Ping ≥ timeoutSentinel then line ++ "  # Timeout" else line

/-- Header block of `GenerateHostsContent` (lines 337-341) with the
generation timestamp (`time.Now().Format(...)`) as a parameter. -/
def hostsHeader (time : String) : String :=
  "# Hosts\n" ++ ("# 更新时间: " ++ time ++ "\n") ++
    "# 项目地址: https://github.com/ineo6/hosts\n" ++ "\n"

/-- Shallow embedding of `GenerateHostsContent` (lines 333-356), written as
the `strings.Builder` fold of the source: start from the header and append
one line plus newline per result. -/
def generateHostsContent (time : String) (results : List HostResult) : String :=
  results.foldl (fun acc r => acc ++ (hostLine r ++ "\n")) (hostsHeader time)

/-- One hosts line as `WriteHostsFile` (lines 319-323) formats it — the
source duplicates the line-formatting code of `GenerateHostsContent`, so the
model does too. -/
def writeHostLine (r : HostResult) : String :=
  let line := padLeftJustify r.IP 30 ++ " " ++ r.Domain
  if r.Ping ≥ timeoutSentinel then line ++ "  # Timeout" else line

/-- The per-result `fmt.Fprintf(writer, "%s\n", line)` payloads of
`WriteHostsFile` (lines 318-327), concatenated in loop order. -/
def writeHostsLines : List HostResult → String
  | [] => ""
  | r :: rest => (writeHostLine r ++ "\n") ++ writeHostsLines rest

/-- Text that `WriteHostsFile` (lines 300-330) writes to the output file when
`os.Create` succeeds: the four header `Fprintf` payloads (lines 312-315)
followed by the per-result payloads, with the generation timestamp a
parameter. -/
def writeHostsFileContent (time : String) (results : List HostResult) : String :=
  "# Hosts\n" ++ ("# 更新时间: " ++ time ++ "\n") ++
    "# 项目地址: https://github.com/ineo6/hosts\n" ++ "\n" ++ writeHostsLines results

/-- One data line as the amended claim C6 describes it: the fixed-width IP
field (or the not-found marker that `processHost` stored in the `IP` field),
one space, the domain, and the trailing `  # Timeout` comment present if and
only if the result's latency is AT LEAST the timeout sentinel. -/
def claimLine (r : HostResult) : String :=
  padLeftJustify r.IP 30 ++ " " ++ r.Domain ++
    (if r.Ping ≥ timeoutSentinel then "  # Timeout" else "") ++ "\n"

/-- Exactly one claim line per result, in result order. -/
def claimLines : List HostResult → String
  | [] => ""
  | r :: rest => claimLine r ++ claimLines rest

/-- Rendering described by the amended claim C6: the fixed header block,
then exactly one data line per result. -/
def claimRender (time : String) (results : List HostResult) : String :=
  hostsHeader time ++ claimLines results

/-- One data line as claim C6 states it literally: the timeout comment is
present if and only if the latency EQUALS the sentinel. -/
def claimLineEq (r : HostResult) : String :=
  padLeftJustify r.IP 30 ++ " " ++ r.Domain ++
    (if r.Ping = timeoutSentinel then "  # Timeout" else "") ++ "\n"

/-- Data lines for the claim read literally. -/
def claimLinesEq : List HostResult → String
  | [] => ""
  | r :: rest => claimLineEq r ++ claimLinesEq rest

/-- Rendering described by claim C6 read literally (marker iff the latency
equals the sentinel). -/
def claimRenderEq (time : String) (results : List HostResult) : String :=
  hostsHeader time ++ claimLinesEq results

theorem writeHostLine_eq_hostLine : writeHostLine = hostLine := rfl

theorem generate_foldl_append :
    ∀ (results : List HostResult) (acc : String),
      results.foldl (fun a r => a ++ (hostLine r ++ "\n")) acc =
        acc ++ writeHostsLines results := by
  intro results
  induction results with
  | nil =>
    intro acc
    show acc = acc ++ ""
    rw [String.append_empty]
  | cons r rest ih =>
    intro acc
    rw [List.foldl_cons, ih, writeHostsLines, writeHostLine_eq_hostLine,
      String.append_assoc]

/-- C10: for a fixed generation timestamp, the text `WriteHostsFile` writes
to the output file is character-for-character the string
`GenerateHostsContent` returns for the same result list: the two renderers
implement the same format. -/
theorem C10_writeHostsFile_eq_generate (time : String) (results : List HostResult) :
    writeHostsFileContent time results = generateHostsContent time results := by
  rw [generateHostsContent, generate_foldl_append, writeHostsFileContent, hostsHeader]

theorem hostLine_newline_eq_claimLine (r : HostResult) :
    hostLine r ++ "\n" = claimLine r := by
  rw [hostLine, claimLine]
  by_cases hp : r.Ping ≥ timeoutSentinel
  · simp only [hp, if_pos, String.append_assoc]
  · simp only [hp, if_neg, not_false_iff, String.append_empty, String.append_assoc]

theorem writeHostsLines_eq_claimLines :
    ∀ results : List HostResult, writeHostsLines results = claimLines results := by
  intro results
  induction results with
  | nil => rfl
  | cons r rest ih =>
    rw [writeHostsLines, claimLines, writeHostLine_eq_hostLine, ih,
      hostLine_newline_eq_claimLine]

/-- C6 (amended): the rendered hosts text is the fixed header block followed
by exactly one data line per result — fixed-width IP field (or the not-found
marker), a space, the domain — where the trailing `  # Timeout` comment is
present if and only if the result's latency is at least (not: equal to) the
timeout sentinel. -/
theorem C6_generateHostsContent_format (time : String) (results : List HostResult) :
    generateHostsContent time results = claimRender time results := by
  rw [generateHostsContent, generate_foldl_append, claimRender, writeHostsLines_eq_claimLines]

/-- Counterexample to C6 as stated: a result with latency 1500 ≠ 1000 (the
sentinel) still gets the `  # Timeout` marker, because the code tests
`Ping >= float64(PingTimeoutSec*1000)`, not equality; the literal reading of
the claim renders a different string. -/
theorem C6_counterexample :
    (HostResult.mk "github.com" "140.82.113.3" 1500 "").Ping ≠ timeoutSentinel ∧
    generateHostsContent "2025-01-01 00:00:00"
        [HostResult.mk "github.com" "140.82.113.3" 1500 ""] ≠
      claimRenderEq "2025-01-01 00:00:00"
        [HostResult.mk "github.com" "140.82.113.3" 1500 ""] := by
  constructor
  · show (1500 : ℚ) ≠ timeoutSentinel
    rw [timeoutSentinel]
    norm_num
  · decide

/-- Value of a run of decimal digit characters. -/
def natOfDigits (cs : List Char) : ℕ :=
  cs.foldl (fun n c => n * 10 + (c.toNat - '0'.toNat)) 0

/-- Split a character list at every `'.'` (the semantics of splitting a
string on the separator `"."`: `n` dots yield `n+1` possibly-empty fields). -/
def splitOnDot : List Char → List (List Char)
  | [] => [[]]
  | c :: cs =>
    let rest := splitOnDot cs
    if c = '.' then [] :: rest
    else
      match rest with
      | f :: fs => (c :: f) :: fs
      | [] => [[c]]

/-- One dotted-decimal field as Go `net.ParseIP`'s IPv4 branch accepts it:
non-empty, decimal digits only, value at most 255, and no leading zero in a
multi-digit field (rejected since Go 1.17). -/
def validV4Field (cs : List Char) : Bool :=
  !cs.isEmpty && cs.all Char.isDigit && natOfDigits cs ≤ 255 &&
    !(decide (cs.length > 1) && cs.headD '0' == '0')

/-- Go `net.ParseIP(ip) != nil` (line 257), modelled on the candidate strings
that can actually reach `getBestIP`: every candidate is produced either by
`getIPFromWeb` — a match of the regex `\b(?:[0-9]{1,3}\.){3}[0-9]{1,3}\b`,
so digits and dots only — or by `getIPFromDNS` — `net.IP.String()` of a
4-byte A record, canonical dotted decimal.  No candidate contains a colon,
so `ParseIP`'s IPv6 branch is unreachable and `ParseIP` succeeds exactly on
valid dotted-decimal IPv4 strings: four fields, each a digit run with value
at most 255 and no leading zero. -/
def goParseIPOk (s : String) : Bool :=
  let parts := splitOnDot s.toList
  parts.length == 4 && parts.all validV4Field

/-- Shape of every match of the IPv4 regex of `getIPFromWeb` (line 191) and
of every rendered A record of `getIPFromDNS` (line 213): four dot-separated
runs of one to three decimal digits. -/
def dottedQuadShape (s : String) : Bool :=
  let parts := splitOnDot s.toList
  parts.length == 4 &&
    parts.all fun p => decide (1 ≤ p.length) && decide (p.length ≤ 3) && p.all Char.isDigit

/-- Boolean `≤` on strings, the comparison `sort.Strings` sorts by (byte-wise
lexicographic in Go, code-point lexicographic here; the two agree on the
ASCII candidate strings that occur). -/
def sle (a b : String) : Bool := a ≤ b

/-- The merge/filter/dedup/sort stage of `getBestIP` (lines 246-271): append
the web and DNS candidate lists, drop denylisted entries and strings
`net.ParseIP` rejects, deduplicate (the Go code collects survivors as keys
of a `map[string]bool`), and sort ascending.  Go iterates that map in
randomized order and then sorts the distinct keys with `sort.Strings`, so
the result is independent of the randomization: it is THE ascending
enumeration of the deduplicated filtered set, modelled directly. -/
def candidateList (webIPs dnsIPs : List String) : List String :=
  sortBy sle (((webIPs ++ dnsIPs).filter fun ip =>
    !DiscardList.contains ip && goParseIPOk ip).dedup)

/-- Possible outcomes of `getBestIP` (lines 227-277) given the absorbed
source outputs `webIPs` and `dnsIPs` (their errors are discarded at lines
236/241): an empty filtered candidate set yields the error `未找到有效IP地址`
("no valid IP address found") and the empty IP with the cache untouched;
otherwise `selectBestIP` runs on the sorted candidate list. -/
def GetBestIPOutcome (env : ProbeEnv) (cache : Cache) (webIPs dnsIPs : List String)
    (res : Except String String) (cache' : Cache) : Prop :=
  if (candidateList webIPs dnsIPs).isEmpty then
    res = .error "未找到有效IP地址" ∧ cache' = cache
  else
    ∃ ip, SelectOutcome env cache (candidateList webIPs dnsIPs) ip cache' ∧ res = .ok ip

theorem mem_insertSorted {α} (le : α → α → Bool) (a b : α) :
    ∀ l : List α, a ∈ insertSorted le b l ↔ a = b ∨ a ∈ l := by
  intro l
  induction l with
  | nil => simp [insertSorted]
  | cons c cs ih =>
    rw [insertSorted]
    by_cases hle : le b c
    · simp [hle]
    · simp only [hle, Bool.false_eq_true, if_false, List.mem_cons, ih]
      tauto

theorem mem_sortBy {α} (le : α → α → Bool) (a : α) :
    ∀ l : List α, a ∈ sortBy le l ↔ a ∈ l := by
  intro l
  induction l with
  | nil => simp [sortBy]
  | cons c cs ih => rw [sortBy, mem_insertSorted]; simp [ih]

theorem mem_candidateList {webIPs dnsIPs : List String} {ip : String}
    (h : ip ∈ candidateList webIPs dnsIPs) :
    ip ∈ webIPs ++ dnsIPs ∧ goParseIPOk ip = true ∧ ip ∉ DiscardList := by
  rw [candidateList, mem_sortBy, List.mem_dedup, List.mem_filter] at h
  obtain ⟨hmem, hpass⟩ := h
  rw [Bool.and_eq_true, Bool.not_eq_true'] at hpass
  exact ⟨hmem, hpass.2, by simpa using hpass.1⟩

/-- C5: with candidates as the two sources can actually produce them
(dotted-quad-shaped strings), `getBestIP` fails with `未找到有效IP地址`
("no valid address found") and returns no IP exactly when the merged,
denylist- and validity-filtered candidate set is empty; otherwise the
returned IP is a member of the merged input that parses as a valid IPv4
address, is not denylisted, and was latency-probed in this call with a
recorded latency minimal among all probed candidates. -/
theorem C5_getBestIP_filter (env : ProbeEnv) (cache : Cache) (webIPs dnsIPs : List String)
    (res : Except String String) (cache' : Cache)
    (hweb : ∀ s ∈ webIPs, dottedQuadShape s = true)
    (hdns : ∀ s ∈ dnsIPs, dottedQuadShape s = true)
    (h : GetBestIPOutcome env cache webIPs dnsIPs res cache') :
    (res = .error "未找到有效IP地址" ↔ candidateList webIPs dnsIPs = []) ∧
    ∀ ip, res = .ok ip →
      ip ∈ webIPs ++ dnsIPs ∧ goParseIPOk ip = true ∧ ip ∉ DiscardList ∧
      ∃ q, (ip, q) ∈ (probeAll env cache (candidateList webIPs dnsIPs)).1 ∧
        ∀ pr ∈ (probeAll env cache (candidateList webIPs dnsIPs)).1, q ≤ pr.2 := by
  rw [GetBestIPOutcome] at h
  by_cases he : (candidateList webIPs dnsIPs).isEmpty
  · rw [if_pos he] at h
    rw [List.isEmpty_iff] at he
    refine ⟨by simp [h.1, he], ?_⟩
    intro ip hip
    rw [h.1] at hip
    exact absurd hip (by simp)
  · rw [if_neg he] at h
    obtain ⟨best, hsel, hres⟩ := h
    have hne : candidateList webIPs dnsIPs ≠ [] := by
      simpa [List.isEmpty_iff] using he
    constructor
    · rw [hres]
      constructor
      · intro hc; exact absurd hc (by simp)
      · intro hc; exact absurd hc hne
    · intro ip hip
      rw [hres] at hip
      have hipb : ip = best := by
        injection hip.symm
      subst hipb
      obtain ⟨hmem, q, hq, hmin⟩ := selectOutcome_spec hne hsel
      obtain ⟨h1, h2, h3⟩ := mem_candidateList hmem
      exact ⟨h1, h2, h3, q, hq, hmin⟩

/-- Witness for C5: one web candidate `140.82.112.3` whose probe fails; the
candidate set is non-empty and the returned IP is that candidate, valid,
non-denylisted, and probed with the (only) recorded latency. -/
theorem C5_getBestIP_filter_witness :
    ¬(Except.ok "140.82.112.3" = (Except.error "未找到有效IP地址" : Except String String)) ∧
    "140.82.112.3" ∈ ["140.82.112.3"] ++ ([] : List String) ∧
    goParseIPOk "140.82.112.3" = true ∧ "140.82.112.3" ∉ DiscardList ∧
    ∃ q, ("140.82.112.3", q) ∈
        (probeAll (fun _ => none) [] (candidateList ["140.82.112.3"] [])).1 ∧
      ∀ pr ∈ (probeAll (fun _ => none) [] (candidateList ["140.82.112.3"] [])).1,
        q ≤ pr.2 := by
  have hout : GetBestIPOutcome (fun _ => none) [] ["140.82.112.3"] []
      (.ok "140.82.112.3") [] := by
    rw [GetBestIPOutcome, if_neg (by decide)]
    refine ⟨"140.82.112.3", ?_, rfl⟩
    rw [SelectOutcome, if_neg (by decide)]
    exact ⟨[("140.82.112.3", timeoutSentinel)], timeoutSentinel, [], by decide,
      List.chain'_singleton _, rfl, rfl⟩
  have h := C5_getBestIP_filter (fun _ => none) [] ["140.82.112.3"] []
    (.ok "140.82.112.3") [] (by decide) (by simp) hout
  refine ⟨?_, h.2 "140.82.112.3" rfl⟩
  intro hc
  have := h.1.mp hc
  exact absurd this (by decide)

/-- Whitespace as `strings.TrimSpace` strips it, restricted to the ASCII
space characters that occur in domain-list files (space, tab, LF, VT, FF,
CR; Go's `unicode.IsSpace` additionally covers non-ASCII spaces). -/
def isGoSpace (c : Char) : Bool :=
  c = ' ' || c = '\t' || c = '\n' || c = '\r' || c.toNat = 11 || c.toNat = 12

/-- `strings.TrimSpace`: drop leading and trailing whitespace. -/
def trimChars (cs : List Char) : List Char :=
  ((cs.dropWhile isGoSpace).reverse.dropWhile isGoSpace).reverse

/-- The inline-comment strip of `readDomainFile` (lines 79-81): if the line
contains a `#`, keep only the part before the first `#` and trim it again
(`strings.Index` + slice + `strings.TrimSpace`). -/
def stripInlineComment (l : List Char) : List Char :=
  if l.contains '#' then trimChars (l.takeWhile fun c => c ≠ '#') else l

/-- The per-line processing of `readDomainFile` (lines 72-86): trim the
scanned line, skip it if empty or starting with `#`, strip an inline
comment, and keep the remainder if non-empty. -/
def processLine (line : String) : Option String :=
  let l := trimChars line.toList
  if l.isEmpty then none
  else if l.headD ' ' == '#' then none
  else
    let l2 := stripInlineComment l
    if l2.isEmpty then none else some (String.mk l2)

/-- Domains collected by `readDomainFile` from the file's lines, in line
order (`bufio.Scanner` yields the lines in order; kept lines are appended). -/
def parseDomainLines (lines : List String) : List String :=
  lines.filterMap processLine

/-- The input phase of `DetectHosts` (lines 359-368): `file = none` models
`os.Open` failing (file missing or unreadable), `some lines` a successful
read of the given lines.  A read error is wrapped into the hard error
`读取域名文件失败` ("failed to read domain file"); an empty parsed domain list
yields the hard error `域名文件为空` ("domain file is empty"). -/
def detectHostsPre (file : Option (List String)) : Except String (List String) :=
  match file with
  | none => .error "读取域名文件失败"
  | some lines =>
    let ds := parseDomainLines lines
    if ds.isEmpty then .error "域名文件为空" else .ok ds

/-- Abstract per-domain resolution as `processHost` (line 283) consumes it:
`none` models `getBestIP` returning an error, `some (ip, p)` a successful
selection whose subsequent `pingCached(ip)` (line 292) returns `p`.  The
environment is a function of the domain alone, which is faithful for the
result-assembly and ordering properties modelled here (the shared ping cache
can only influence which `(ip, p)` a domain gets, not the bookkeeping). -/
abbrev ResolveEnv := String → Option (String × ℚ)

/-- Shallow embedding of `processHost` (lines 280-297): on failure the error
message and the not-found marker are stored (the `Ping` field keeps its zero
value); on success the chosen IP and its cached ping. -/
def processHost (resolve : ResolveEnv) (domain : String) : HostResult :=
  match resolve domain with
  | none => ⟨domain, "# IP Address Not Found", 0, "未找到有效IP地址"⟩
  | some (ip, p) => ⟨domain, ip, p, ""⟩

def domainOrderAux (d : String) : List String → ℕ → ℕ → ℕ
  | [], _, acc => acc
  | x :: xs, i, acc => domainOrderAux d xs (i + 1) (if x = d then i else acc)

/-- The `domainOrder` map of `DetectHosts` (lines 402-405): a domain maps to
the index of its LAST occurrence in the input list (later loop iterations
overwrite earlier map entries), and to 0 — the Go zero value of a missing
map key — when absent. -/
def domainOrder (ds : List String) (d : String) : ℕ := domainOrderAux d ds 0 0

/-- Post-state of the final `sort.Slice(results, ...)` of `DetectHosts`
(lines 407-409), which orders by `domainOrder[Domain]`: any permutation
nondecreasing in that key (`sort.Slice` is not stable). -/
def KeySorted (ds : List String) (l : List HostResult) : Prop :=
  l.Chain' fun a b => domainOrder ds a.Domain ≤ domainOrder ds b.Domain

/-- Possible outcomes of `DetectHosts` (lines 359-412).  `netCalls` counts
domain tasks that performed network activity: it is 0 on the two error exits
(lines 363 and 367, both taken before any goroutine is spawned) and one per
domain on the success path.  The channel collection loop (lines 396-399)
receives the per-domain results in completion order — an arbitrary
permutation of one result per input domain — and the final sort then admits
every `KeySorted` permutation. -/
def DetectHostsOutcome (file : Option (List String)) (resolve : ResolveEnv)
    (out : Except String (List HostResult)) (netCalls : ℕ) : Prop :=
  match detectHostsPre file with
  | .error e => out = .error e ∧ netCalls = 0
  | .ok ds =>
    netCalls = ds.length ∧
    ∃ sorted, sorted.Perm (ds.map (processHost resolve)) ∧ KeySorted ds sorted ∧
      out = .ok sorted

/-- C8: if the domain-list file is missing/unreadable or parses to zero
domains, `DetectHosts` returns a hard error, carries no results, and
performs no network activity at all. -/
theorem C8_input_failure (file : Option (List String)) (resolve : ResolveEnv)
    (out : Except String (List HostResult)) (netCalls : ℕ)
    (h : DetectHostsOutcome file resolve out netCalls)
    (hbad : file = none ∨ ∃ lines, file = some lines ∧ parseDomainLines lines = []) :
    (∃ e, out = Except.error e) ∧ netCalls = 0 := by
  rcases hbad with hf | ⟨lines, hf, hp⟩
  · subst hf
    rw [DetectHostsOutcome] at h
    exact ⟨⟨"读取域名文件失败", h.1⟩, h.2⟩
  · subst hf
    rw [DetectHostsOutcome, detectHostsPre] at h
    rw [show (parseDomainLines lines).isEmpty = true by simp [hp]] at h
    simp only [if_pos] at h
    exact ⟨⟨"域名文件为空", h.1⟩, h.2⟩

/-- Witness for C8: a file whose only lines are a comment and a blank parse
to zero domains, so the pass fails hard with zero network calls. -/
theorem C8_input_failure_witness :
    (∃ e, (Except.error "域名文件为空" : Except String (List HostResult)) = Except.error e) ∧
    (0 : ℕ) = 0 :=
  C8_input_failure (some ["# only a comment", "   "]) (fun _ => none)
    (.error "域名文件为空") 0
    (by
      have hpre : detectHostsPre (some ["# only a comment", "   "]) =
          .error "域名文件为空" := rfl
      simp only [DetectHostsOutcome, hpre]
      simp)
    (.inr ⟨["# only a comment", "   "], rfl, by decide⟩)

theorem processHost_domain (resolve : ResolveEnv) (d : String) :
    (processHost resolve d).Domain = d := by
  cases h : resolve d with
  | none => simp [processHost, h]
  | some p => obtain ⟨ip, q⟩ := p; simp [processHost, h]

theorem domainOrderAux_not_mem (d : String) :
    ∀ (xs : List String) (i acc : ℕ), d ∉ xs → domainOrderAux d xs i acc = acc := by
  intro xs
  induction xs with
  | nil => intro i acc _; rfl
  | cons x rest ih =>
    intro i acc hd
    rw [domainOrderAux]
    have hx : ¬x = d := fun h => hd (h ▸ List.mem_cons_self _ _)
    rw [if_neg hx]
    exact ih _ _ fun h => hd (List.mem_cons_of_mem _ h)

theorem domainOrderAux_get :
    ∀ xs : List String, xs.Nodup →
      ∀ (k : ℕ) (hk : k < xs.length) (i acc : ℕ), domainOrderAux xs[k] xs i acc = i + k := by
  intro xs
  induction xs with
  | nil => intro _ k hk; exact absurd hk (by simp)
  | cons x rest ih =>
    intro hnd k hk i acc
    rcases List.nodup_cons.mp hnd with ⟨hx, hrest⟩
    cases k with
    | zero =>
      rw [List.getElem_cons_zero, domainOrderAux, if_pos rfl,
        domainOrderAux_not_mem x rest _ _ hx]
      omega
    | succ k' =>
      have hk' : k' < rest.length := by simpa using hk
      rw [List.getElem_cons_succ, domainOrderAux]
      have hne : ¬x = rest[k'] := by
        intro hxe
        exact hx (hxe ▸ List.getElem_mem hk')
      rw [if_neg hne, ih hrest k' hk' (i + 1) acc]
      omega

theorem domainOrder_get (ds : List String) (hnd : ds.Nodup) (k : ℕ) (hk : k < ds.length) :
    domainOrder ds ds[k] = k := by
  rw [domainOrder, domainOrderAux_get ds hnd k hk 0 0]
  omega

theorem map_key_range (resolve : ResolveEnv) (ds : List String) (hnd : ds.Nodup) :
    (ds.map (processHost resolve)).map (fun r => domainOrder ds r.Domain) =
      List.range ds.length := by
  apply List.ext_getElem
  · simp
  · intro i h1 h2
    simp only [List.getElem_map, List.getElem_range]
    rw [processHost_domain, domainOrder_get ds hnd]

/-- A permutation of a list with strictly increasing keys that is itself
nondecreasing in the keys must be that list: `sort.Slice` by `domainOrder`
is deterministic when every key occurs once. -/
theorem perm_keySorted_unique {α : Type} (key : α → ℕ) (l L : List α)
    (hperm : l.Perm L) (hchain : l.Chain' fun a b => key a ≤ key b)
    (hrange : L.map key = List.range L.length) : l = L := by
  letI : IsTrans α fun a b => key a ≤ key b := ⟨fun _ _ _ => Nat.le_trans⟩
  have hpl : (l.map key).Pairwise (· ≤ ·) := by
    rw [List.pairwise_map]
    exact List.chain'_iff_pairwise.mp hchain
  have hpL : (L.map key).Pairwise (· ≤ ·) := by
    rw [hrange]
    exact (List.pairwise_lt_range _).imp Nat.le_of_lt
  have hkeys : l.map key = L.map key :=
    List.eq_of_perm_of_sorted (hperm.map key) hpl hpL
  have hsl : l.Pairwise fun a b => key a < key b := by
    rw [← List.pairwise_map (f := key), hkeys, hrange]
    exact List.pairwise_lt_range _
  have hsL : L.Pairwise fun a b => key a < key b := by
    rw [← List.pairwise_map (f := key), hrange]
    exact List.pairwise_lt_range _
  letI : IsAntisymm α fun a b => key a < key b :=
    ⟨fun _ _ h h' => absurd (Nat.lt_trans h h') (Nat.lt_irrefl _)⟩
  exact List.eq_of_perm_of_sorted hperm hsl hsL

/-- C2 (amended): when the parsed input domains are pairwise distinct, every
possible `DetectHosts` success output lists exactly one result per domain in
exactly the input order, whatever completion order the concurrent tasks
delivered results in.  (With duplicate input domains the guarantee fails,
see the counterexample.) -/
theorem C2_detectHosts_order (file : Option (List String)) (resolve : ResolveEnv)
    (out : Except String (List HostResult)) (netCalls : ℕ) (ds : List String)
    (l : List HostResult)
    (h : DetectHostsOutcome file resolve out netCalls)
    (hds : detectHostsPre file = .ok ds) (hnd : ds.Nodup)
    (hout : out = .ok l) :
    l = ds.map (processHost resolve) ∧ l.map HostResult.Domain = ds := by
  rw [hout] at h
  simp only [DetectHostsOutcome, hds] at h
  obtain ⟨-, sorted, hperm, hchain, hOut⟩ := h
  have hl : l = sorted := by injection hOut
  subst hl
  have hrange : (ds.map (processHost resolve)).map (fun r => domainOrder ds r.Domain) =
      List.range (ds.map (processHost resolve)).length := by
    rw [map_key_range resolve ds hnd, List.length_map]
  have heq := perm_keySorted_unique (fun r => domainOrder ds r.Domain) l
    (ds.map (processHost resolve)) hperm
    (show l.Chain' fun a b => domainOrder ds a.Domain ≤ domainOrder ds b.Domain from hchain)
    hrange
  refine ⟨heq, ?_⟩
  rw [heq, List.map_map]
  have hid : ∀ d ∈ ds, (HostResult.Domain ∘ processHost resolve) d = d := fun d _ =>
    processHost_domain resolve d
  rw [List.map_congr_left hid]
  simp

/-- Witness for C2: two distinct domains resolved with completion in input
order; the output is in input order. -/
theorem C2_detectHosts_order_witness :
    [processHost (fun _ => none) "a.com", processHost (fun _ => none) "b.com"] =
      ["a.com", "b.com"].map (processHost (fun _ => none)) ∧
    [processHost (fun _ => none) "a.com", processHost (fun _ => none) "b.com"].map
      HostResult.Domain = ["a.com", "b.com"] :=
  C2_detectHosts_order (some ["a.com", "b.com"]) (fun _ => none)
    (.ok [processHost (fun _ => none) "a.com", processHost (fun _ => none) "b.com"]) 2
    ["a.com", "b.com"]
    [processHost (fun _ => none) "a.com", processHost (fun _ => none) "b.com"]
    (by
      have hpre : detectHostsPre (some ["a.com", "b.com"]) = .ok ["a.com", "b.com"] := rfl
      simp only [DetectHostsOutcome, hpre]
      refine ⟨rfl,
        [processHost (fun _ => none) "a.com", processHost (fun _ => none) "b.com"],
        ?_, ?_, rfl⟩
      · exact List.Perm.refl _
      · exact List.chain'_cons.mpr ⟨by decide, List.chain'_singleton _⟩)
    rfl (by decide) rfl

/-- Counterexample to C2 as stated: the accepted input list
`[a.com, b.com, a.com]` contains a duplicate; `domainOrder` keeps only the
LAST index of `a.com`, so a possible (indeed, the only possible) output
order is `[b.com, a.com, a.com]`, not the input order. -/
theorem C2_counterexample :
    DetectHostsOutcome (some ["a.com", "b.com", "a.com"]) (fun _ => none)
      (.ok [processHost (fun _ => none) "b.com", processHost (fun _ => none) "a.com",
        processHost (fun _ => none) "a.com"]) 3 ∧
    [processHost (fun _ => none) "b.com", processHost (fun _ => none) "a.com",
      processHost (fun _ => none) "a.com"].map HostResult.Domain ≠
      ["a.com", "b.com", "a.com"] := by
  constructor
  · have hpre : detectHostsPre (some ["a.com", "b.com", "a.com"]) =
        .ok ["a.com", "b.com", "a.com"] := rfl
    simp only [DetectHostsOutcome, hpre]
    refine ⟨rfl,
      [processHost (fun _ => none) "b.com", processHost (fun _ => none) "a.com",
        processHost (fun _ => none) "a.com"], ?_, ?_, rfl⟩
    · exact List.Perm.swap _ _ _
    · exact List.chain'_cons.mpr ⟨by decide,
        List.chain'_cons.mpr ⟨by decide, List.chain'_singleton _⟩⟩
  · decide

/-- Phase of one per-domain worker goroutine of `DetectHosts` (lines
378-387): `pending` before the semaphore send at line 382 succeeds, `active`
while holding a permit — exactly the span of the network-active
`processHost` call at line 384 (discovery and selection) — and `done` after
the receive at line 385 released the permit. -/
inductive TaskPhase
  | pending
  | active
  | done
deriving DecidableEq

/-- Number of worker tasks currently in their network-active phase, i.e.
holding a permit of the buffered channel `semaphore` (line 374). -/
def countActive (s : List TaskPhase) : ℕ :=
  s.countP fun p => decide (p = TaskPhase.active)

/-- One scheduler step of the worker pool of `DetectHosts` (lines 372-393):
a pending task enters its network-active phase only when fewer than
`MaxConcurrent` permits are taken — a send on a buffered channel of capacity
`MaxConcurrent` blocks while the buffer is full — and an active task may
finish, releasing its permit.  The list position identifies the per-domain
goroutine. -/
inductive OrchStep : List TaskPhase → List TaskPhase → Prop
  | start (l₁ l₂ : List TaskPhase) :
      countActive (l₁ ++ TaskPhase.pending :: l₂) < MaxConcurrent →
      OrchStep (l₁ ++ TaskPhase.pending :: l₂) (l₁ ++ TaskPhase.active :: l₂)
  | finish (l₁ l₂ : List TaskPhase) :
      OrchStep (l₁ ++ TaskPhase.active :: l₂) (l₁ ++ TaskPhase.done :: l₂)

/-- States reachable by one `DetectHosts` pass over `n` domains, starting
from the all-pending state in which the `n` goroutines were spawned. -/
inductive OrchReachable (n : ℕ) : List TaskPhase → Prop
  | init : OrchReachable n (List.replicate n TaskPhase.pending)
  | step {s t : List TaskPhase} : OrchReachable n s → OrchStep s t → OrchReachable n t

theorem countActive_replicate_pending (n : ℕ) :
    countActive (List.replicate n TaskPhase.pending) = 0 := by
  induction n with
  | zero => rfl
  | succ m ih => rw [List.replicate_succ, countActive, List.countP_cons]; simpa [countActive]

/-- C9: in every state reachable during a `DetectHosts` pass, for any number
of input domains, at most `MaxConcurrent` per-domain tasks are in their
network-active (discovering/selecting) phase simultaneously: the counting
semaphore enforces the bound. -/
theorem C9_concurrency_bound (n : ℕ) (s : List TaskPhase)
    (h : OrchReachable n s) : countActive s ≤ MaxConcurrent := by
  induction h with
  | init => rw [countActive_replicate_pending]; exact Nat.zero_le _
  | step hreach hstep ih =>
    cases hstep with
    | start l₁ l₂ hlt =>
      simp [countActive, List.countP_append, List.countP_cons] at hlt ih ⊢
      omega
    | finish l₁ l₂ =>
      simp [countActive, List.countP_append, List.countP_cons] at ih ⊢
      omega

/-- Witness for C9: a pass over 12 domains (more than `MaxConcurrent`) that
has taken one admission step; the reachable state has one active task, within
the bound. -/
theorem C9_concurrency_bound_witness :
    countActive (TaskPhase.active :: List.replicate 11 TaskPhase.pending) ≤ MaxConcurrent :=
  C9_concurrency_bound 12 (TaskPhase.active :: List.replicate 11 TaskPhase.pending)
    (OrchReachable.step OrchReachable.init
      (by
        have h : OrchStep ([] ++ TaskPhase.pending :: List.replicate 11 TaskPhase.pending)
            ([] ++ TaskPhase.active :: List.replicate 11 TaskPhase.pending) :=
          OrchStep.start [] (List.replicate 11 TaskPhase.pending)
            (by rw [List.nil_append, ← List.replicate_succ, countActive_replicate_pending]; decide)
        simpa using h))

end HostsServer
